import Mathlib

/-!
# form-idable: verification of the intermediate-format pipeline and viewer

Shallow embedding of the form-idable repository: the spec-modelled core
pipeline pieces (header resolver, identifier propagation, intermediate
builder) and the viewer/editor operations implemented in
`src/form-viewer/src/App.vue`, `SidePanel.vue`, `FormViewer.vue` and the
`BoxOverlay` components.
-/

namespace FormIdable

/-! ## Header resolver (spec §4.4) -/

/-- Modelled from the spec: the symbol-normalization table of the Header
Resolver (§4.4).  The resolver's implementation is not in the repository
sources; the spec fixes "lower-cased, spaces converted to underscores" and a
fixed substitution table in which the character `#` always maps to the token
`no`.  Every other character is lower-cased, so the rule is total. -/
def normChar (c : Char) : String :=
  if c = ' ' then "_"
  else if c = '#' then "no"
  else String.singleton c.toLower

/-- Modelled from the spec: normalization of a header text into a canonical
field-key fragment (§4.4): lower-case, spaces to underscores, symbols via the
substitution table `normChar`. -/
def normalizeText (s : String) : String :=
  String.join (s.data.map normChar)

/-- A header cell as seen by the Header Resolver: its text, its table column
index, and its column span (`ColumnSpan` in the Textract output). -/
structure HCell where
  text : String
  column_index : Nat
  column_span : Nat
deriving DecidableEq

/-- Modelled from the spec: resolution of the cells of one HEADER row against
the next HEADER row (§4.4).  A cell with `column_span > 1` defines a spanning
group over `[column_index, column_index + column_span)`; the next row's cells
whose `column_index` falls in that range are combined with it
(spanning-text ++ "_" ++ subheader-text, both normalized) with `merged = true`,
and those subheader cells are consumed.  A spanning cell with no matching
subheader, and any non-spanning cell, resolves to its own normalized text with
`merged = false`.  Returns the resolved `(key, column_index, merged)` triples
together with the column indices consumed from the next row. -/
def resolveCells : List HCell → List HCell → List (String × Nat × Bool) × List Nat
  | [], _ => ([], [])
  | c :: cs, next =>
    let rest := resolveCells cs next
    if c.column_span > 1 then
      let subs := next.filter (fun s =>
        decide (c.column_index ≤ s.column_index ∧
                s.column_index < c.column_index + c.column_span))
      if subs.isEmpty then
        ((normalizeText c.text, c.column_index, false) :: rest.1, rest.2)
      else
        (subs.map (fun s =>
            (normalizeText c.text ++ "_" ++ normalizeText s.text,
             s.column_index, true)) ++ rest.1,
         subs.map (·.column_index) ++ rest.2)
    else
      ((normalizeText c.text, c.column_index, false) :: rest.1, rest.2)

/-- Modelled from the spec: top-to-bottom resolution of the classified HEADER
rows (§4.4).  `consumed` carries the column indices of the current row already
used as subheaders of a spanning cell of the previous row; such cells are
skipped. -/
def resolveHeaderRows : List Nat → List (List HCell) → List (String × Nat × Bool)
  | _, [] => []
  | consumed, r :: rest =>
    let r' := r.filter (fun c => !(consumed.contains c.column_index))
    let step := resolveCells r' (rest.headD [])
    step.1 ++ resolveHeaderRows step.2 rest

/-- Modelled from the spec: the Header Resolver (§4.4), on the ordered list of
HEADER rows.  Produces `(key, column_index, merged)` triples. -/
def resolveHeaders (rows : List (List HCell)) : List (String × Nat × Bool) :=
  resolveHeaderRows [] rows

/-! ## Field propagator, identifier policy (spec §4.5) -/

/-- Modelled from the spec: the identifier-column propagation policy of the
Field Propagator (§4.5), which is not in the repository sources.  Walking the
column's values in document order with the last explicit value at hand: an
empty cell inherits the nearest non-empty value from a prior row, and a
non-empty cell resets that value for all subsequent empty cells. -/
def propagateIdFrom : Option String → List String → List String
  | _, [] => []
  | last, v :: vs =>
    if v = "" then last.getD "" :: propagateIdFrom last vs
    else v :: propagateIdFrom (some v) vs

/-- Modelled from the spec: identifier propagation over a whole column, with
no value yet in scope at the first row. -/
def propagateIdentifier (vs : List String) : List String :=
  propagateIdFrom none vs

/-! ## The intermediate document (docs/imf.md, §3/§6)

The document is parameterized by the type `γ` of `group_id` values: the
builder assigns structured ids (kind and sequence number, rendered
`<kind>_<n>` in the JSON), while the viewer reads them back as plain strings.
-/

/-- A normalized bounding box, `Left`/`Top`/`Width`/`Height` each in [0,1]. -/
structure BBox where
  Left : ℚ
  Top : ℚ
  Width : ℚ
  Height : ℚ
deriving DecidableEq

/-- Per-cell detail stored under a row's `system.cells` map
(docs/imf.md, rows schema). -/
structure CellDetail where
  bbox : BBox
  confidence : ℚ
  text : String
  header : String
  row_index : Int
  column_index : Int
deriving DecidableEq

/-- The `system` block of a universal field (docs/imf.md).  `valid` is a JSON
boolean that may be absent, and the viewer's export tests it with
`!== false`, so it is an `Option Bool` here. -/
structure USys (γ : Type) where
  group_id : γ
  valid : Option Bool
  column_index : Int
  row_index : Int
deriving DecidableEq

/-- A universal field entry (docs/imf.md): a form-wide key/value pair.  The
value is a JSON string or null. -/
structure UniversalField (γ : Type) where
  value : Option String
  description : String
  alt_names : List String
  merged : Bool
  system : USys γ
deriving DecidableEq

/-- The `system` block of a header-map entry (docs/imf.md). -/
structure HSys (γ : Type) where
  merged : Bool
  group_id : γ
  column_index : Int
  row_index : Int
deriving DecidableEq

/-- A header-map entry.  Ordinary entries carry a `system` block; the reserved
entry under the key `"system"` instead carries the header-block bounding box
that `FormViewer.vue` reads as `header_map.system.bbox`, so both are optional
fields here. -/
structure HeaderEntry (γ : Type) where
  field_name : String
  description : String
  alt_names : List String
  system : Option (HSys γ)
  bbox : Option BBox
deriving DecidableEq

/-- The `system` block of a data row (docs/imf.md): row bbox, group id, row
index, `column_index = -1`, and the per-cell detail map. -/
structure RowSystem (γ : Type) where
  bbox : BBox
  group_id : Option γ
  row_index : Int
  column_index : Int
  cells : List (String × CellDetail)
deriving DecidableEq

/-- A data row: its field map (header key to cell text, a JSON string or
null) plus the reserved `system` block.  In the JSON the system block lives
under the reserved key `"system"` of the same object; it is kept apart here
and the field map never contains that key. -/
structure Row (γ : Type) where
  fields : List (String × Option String)
  system : RowSystem γ
deriving DecidableEq

/-- The intermediate document (docs/imf.md): `universal_fields`,
`header_map` and `rows`. -/
structure Doc (γ : Type) where
  universal_fields : List (String × UniversalField γ)
  header_map : List (String × HeaderEntry γ)
  rows : List (Row γ)
deriving DecidableEq

/-! ## Intermediate builder (spec §4.6, docs/imf.md) -/

/-- The kind of a `group_id`: `universal_field`, `col` or `row` (spec §4.6). -/
inductive GKind where
  | universalField
  | col
  | row
deriving DecidableEq

/-- Modelled from the spec: a structured group id, `<kind>_<n>` in the JSON
rendering (§4.6).  `n` is assigned in first-seen document order within each
kind. -/
structure GroupId where
  kind : GKind
  n : Nat
deriving DecidableEq

/-- The per-row input of the Intermediate Builder: the resolved field map of
one DATA row plus its geometry and cell details. -/
structure RowInput where
  fields : List (String × Option String)
  bbox : BBox
  row_index : Int
  cells : List (String × CellDetail)
deriving DecidableEq

/-- Pair every element of a list with its position, starting at `n`. -/
def withIdx (n : Nat) : List α → List (Nat × α)
  | [] => []
  | a :: as => (n, a) :: withIdx (n + 1) as

/-- Modelled from the spec: the Intermediate Builder (§4.6), which is not in
the repository sources.  It emits `{universal_fields, header_map, rows}` from
the resolved universal key/value pairs, the Header Resolver's
`(key, column_index, merged)` triples, and the propagated DATA rows.  Every
universal field gets `column_index = -1`, `row_index = -1`, `valid = true` and
group id `universal_field_<n>` with `n` starting at 1; header entries get
`row_index = -1` and group id `col_<n>`; rows get `column_index = -1` and
group id `row_<n>` from a single monotonically increasing counter. -/
def buildDocument (univs : List (String × Option String))
    (headers : List (String × Nat × Bool)) (rowsIn : List RowInput) :
    Doc GroupId where
  universal_fields := (withIdx 0 univs).map (fun p =>
    (p.2.1,
     { value := p.2.2, description := "", alt_names := [], merged := false,
       system :=
        { group_id := ⟨GKind.universalField, p.1 + 1⟩, valid := some true,
          column_index := -1, row_index := -1 } }))
  header_map := (withIdx 0 headers).map (fun p =>
    (p.2.1,
     { field_name := p.2.1, description := "", alt_names := [],
       system := some
        { merged := p.2.2.2, group_id := ⟨GKind.col, p.1⟩,
          column_index := Int.ofNat p.2.2.1, row_index := -1 },
       bbox := none }))
  rows := (withIdx 0 rowsIn).map (fun p =>
    { fields := p.2.fields,
      system :=
       { bbox := p.2.bbox, group_id := some ⟨GKind.row, p.1⟩,
         row_index := p.2.row_index, column_index := -1,
         cells := p.2.cells } })

/-- The multiset of `group_id` values of a document: those of all universal
fields, all header-map entries and all rows, in that order. -/
def allGroupIds (d : Doc γ) : List γ :=
  d.universal_fields.map (fun p => p.2.system.group_id)
    ++ d.header_map.filterMap (fun p => p.2.system.map (·.group_id))
    ++ d.rows.filterMap (fun r => r.system.group_id)

/-! ## JavaScript object-map primitives

JSON objects are association lists with unique keys; reads take the first
match, assignment replaces in place or appends, `delete` removes the key. -/

/-- First-match lookup in an object map, as JavaScript property access. -/
def jget (k : String) : List (String × α) → Option α
  | [] => none
  | p :: ps => if p.1 = k then some p.2 else jget k ps

/-- JavaScript property assignment `obj[k] = v`: replace the value of an
existing key in place, else append the new entry. -/
def jsSet (l : List (String × α)) (k : String) (v : α) : List (String × α) :=
  if (jget k l).isSome then
    l.map (fun p => if p.1 = k then (k, v) else p)
  else l ++ [(k, v)]

/-- JavaScript `delete obj[k]`. -/
def jsDelete (l : List (String × α)) (k : String) : List (String × α) :=
  l.filter (fun p => p.1 ≠ k)

/-! ## Viewer operations (src/form-viewer/src/App.vue) -/

/-- The viewer's `updateRow` (App.vue): bail out unless the incoming row
carries a truthy `system.group_id`; find the first row with that group id and
replace it with the incoming row; otherwise leave the document unchanged. -/
def updateRow (d : Doc String) (u : Row String) : Doc String :=
  match u.system.group_id with
  | none => d
  | some gid =>
    if gid = "" then d
    else
      match d.rows.findIdx? (fun r => r.system.group_id = some gid) with
      | none => d
      | some i => { d with rows := d.rows.set i u }

/-- The per-row part of the viewer's header rename (App.vue `updateHeader`,
`field === 'indicator'` branch): if the row has the old key, assign its value
to the new key and delete the old one; rewrite `cell.header` of every cell
equal to the old key. -/
def renameKeyInRow (k nk : String) (r : Row String) : Row String where
  fields :=
    match jget k r.fields with
    | some w => jsDelete (jsSet r.fields nk w) k
    | none => r.fields
  system :=
    { r.system with
      cells := r.system.cells.map (fun p =>
        (p.1, if p.2.header = k then { p.2 with header := nk } else p.2)) }

/-- JavaScript `String.prototype.trim`: strip leading and trailing
whitespace. -/
def jsTrim (s : String) : String :=
  String.mk (((s.data.dropWhile Char.isWhitespace).reverse.dropWhile
    Char.isWhitespace).reverse)

/-- The viewer's `updateHeader` (App.vue): no-op when the key is absent from
`header_map`; for `field = "indicator"` the trimmed value, when non-empty and
different from the key, becomes the new key — the header entry moves to it and
the rename cascades into every row's field map and every cell's `header`
reference; for `field_name` and `description` only that property of the entry
is updated. -/
def updateHeader (d : Doc String) (key field value : String) : Doc String :=
  match jget key d.header_map with
  | none => d
  | some entry =>
    if field = "indicator" then
      let newKey := jsTrim value
      if newKey = "" ∨ newKey = key then d
      else
        { d with
          header_map := jsDelete (jsSet d.header_map newKey entry) key,
          rows := d.rows.map (renameKeyInRow key newKey) }
    else if field = "field_name" then
      { d with header_map := d.header_map.map (fun p =>
          if p.1 = key then (p.1, { p.2 with field_name := value }) else p) }
    else if field = "description" then
      { d with header_map := d.header_map.map (fun p =>
          if p.1 = key then (p.1, { p.2 with description := value }) else p) }
    else d

/-! ## Save-JSON export (App.vue `saveJson`) -/

/-- The JavaScript object spread `\x7b...base, ...over\x7d`: keys of `base`
keep their position with `over`'s value when overridden, and keys only in
`over` follow. -/
def spreadMerge (base over : List (String × α)) : List (String × α) :=
  base.map (fun p => (p.1, (jget p.1 over).getD p.2))
    ++ over.filter (fun p => (jget p.1 base).isNone)

/-- The export's `validUniversals` filter on an entry list: keep entries whose
`system.valid !== false`. -/
def validOf (u : List (String × UniversalField γ)) :
    List (String × UniversalField γ) :=
  u.filter (fun p => p.2.system.valid ≠ some false)

/-- The export's `flatUniversals`: key to `value ?? null` over the valid
entries. -/
def flatOf (u : List (String × UniversalField γ)) :
    List (String × Option String) :=
  (validOf u).map (fun p => (p.1, p.2.value))

/-- The flat key/value map of the valid universal fields of a document. -/
def flatUniversals (d : Doc String) : List (String × Option String) :=
  flatOf d.universal_fields

/-- One exported row: the spread `\x7b...flatUniversals, ...row\x7d`.  The
row's reserved `system` entry always survives the spread, so a universal field
named `"system"` can never reach a row's field map. -/
def flattenRow (flatU : List (String × Option String)) (r : Row String) :
    Row String :=
  { r with fields := spreadMerge (flatU.filter (fun p => p.1 ≠ "system")) r.fields }

/-- The document written by the viewer's Save-JSON export (App.vue
`saveJson`): every row receives the valid universal fields flattened into it;
`universal_fields` and `header_map` are exported unchanged. -/
def saveJsonDoc (d : Doc String) : Doc String :=
  { d with rows := d.rows.map (flattenRow (flatUniversals d)) }

/-! ## Confidence overlays (BoxOverlay components) -/

/-- `shouldShow` of the BoxOverlay variant (src/unnamed/part_001): the box is
rendered only when the cell has text and its confidence is below 85. -/
def shouldShow (text : String) (confidence : ℚ) : Bool :=
  text ≠ "" && confidence < 85

/-- `borderClass` of the BoxOverlay variant (src/unnamed/part_001). -/
def borderClass (confidence : ℚ) : String :=
  if confidence < 70 then "border border-red-500"
  else if confidence < 85 then "border border-orange-400"
  else "border-none"

/-- `confidenceClass` of the BoxOverlay bundled with App.vue. -/
def confidenceClass (confidence : ℚ) : String :=
  if confidence < 70 then "border-red-400 shadow-[0_0_3px_rgba(255,0,0,0.3)]"
  else if confidence < 85 then "border-orange-400 shadow-[0_0_3px_rgba(255,165,0,0.3)]"
  else "border-green-400 shadow-[0_0_3px_rgba(0,255,0,0.3)]"

/-- Rewrite every cell confidence of a document by `f`, leaving everything
else in place.  Used to state that the export never inspects confidences. -/
def mapConf (f : ℚ → ℚ) (d : Doc String) : Doc String :=
  { d with rows := d.rows.map (fun r =>
      { r with system :=
        { r.system with cells := r.system.cells.map (fun p =>
            (p.1, { p.2 with confidence := f p.2.confidence })) } }) }

/-! ## Side panel and header overlay
(src/form-viewer/src/components/SidePanel.vue, FormViewer.vue) -/

/-- A side-panel local header entry: the copied header-map entry together with
the separately editable key (`_editKey` in SidePanel.vue). -/
structure LocalHeader where
  entry : HeaderEntry String
  editKey : String
deriving DecidableEq

/-- The SidePanel watch on `headers`: copy every header-map entry except the
reserved key `"system"`, storing the original key as the editable key. -/
def localHeadersInit (headers : List (String × HeaderEntry String)) :
    List (String × LocalHeader) :=
  (headers.filter (fun p => p.1 ≠ "system")).map (fun p => (p.1, ⟨p.2, p.1⟩))

/-- An `update-header` event emitted by the side panel towards App.vue. -/
structure UpdateHeaderEvent where
  key : String
  field : String
  value : String
deriving DecidableEq

/-- SidePanel's `saveHeaderChanges`: for every local entry, emit an
`indicator` rename when the edited key differs from the original, then
`field_name` and `description` updates addressed to the edited key. -/
def saveHeaderChanges (locals : List (String × LocalHeader)) :
    List UpdateHeaderEvent :=
  (locals.map (fun p =>
    (if p.2.editKey ≠ p.1 then [⟨p.1, "indicator", p.2.editKey⟩] else [])
      ++ [⟨p.2.editKey, "field_name", p.2.entry.field_name⟩,
          ⟨p.2.editKey, "description", p.2.entry.description⟩])).flatten

/-- An overlay box as rendered by FormViewer.vue: bounding box, the
confidence passed to BoxOverlay, and the label text. -/
structure Overlay where
  bbox : BBox
  confidence : ℚ
  text : String
deriving DecidableEq

/-- The header-block overlay of FormViewer.vue: rendered with confidence 84
and label "Headers" from `header_map.system.bbox` when that is present
(`v-if`), absent otherwise. -/
def headerOverlay (d : Doc String) : Option Overlay :=
  ((jget "system" d.header_map).bind (fun e => e.bbox)).map
    (fun b => { bbox := b, confidence := 84, text := "Headers" })

/-! ## Concrete documents for witnesses and counterexamples -/

/-- A degenerate bounding box. -/
def bbox0 : BBox := ⟨0, 0, 0, 0⟩

/-- A row whose `system.group_id` is the empty string. -/
def rowEmptyGid : Row String where
  fields := [("plot", some "1")]
  system :=
    { bbox := bbox0, group_id := some "", row_index := 1, column_index := -1,
      cells := [] }

/-- The same row with a different field value, also with the empty-string
group id. -/
def rowEmptyGid' : Row String where
  fields := [("plot", some "2")]
  system :=
    { bbox := bbox0, group_id := some "", row_index := 1, column_index := -1,
      cells := [] }

/-- A one-row document whose single row has the empty-string group id. -/
def docEmptyGid : Doc String where
  universal_fields := []
  header_map := []
  rows := [rowEmptyGid]

/-- A row used by the viewer-operation witnesses: one field under the key
`"block"` and one cell referencing that header. -/
def rowW : Row String where
  fields := [("block", some "7")]
  system :=
    { bbox := bbox0, group_id := some "row_1", row_index := 1,
      column_index := -1,
      cells := [("row_1_col_1",
        { bbox := bbox0, confidence := 91, text := "7", header := "block",
          row_index := 1, column_index := 1 })] }

/-- A replacement for `rowW` carrying the same group id but an edited field
value. -/
def rowW2 : Row String where
  fields := [("block", some "8")]
  system :=
    { bbox := bbox0, group_id := some "row_1", row_index := 1,
      column_index := -1,
      cells := [("row_1_col_1",
        { bbox := bbox0, confidence := 91, text := "8", header := "block",
          row_index := 1, column_index := 1 })] }

/-- A universal field marked valid. -/
def ufValid : UniversalField String where
  value := some "BKM"
  description := ""
  alt_names := []
  merged := false
  system :=
    { group_id := "universal_field_1", valid := some true,
      column_index := -1, row_index := -1 }

/-- A universal field whose `system.valid` is `false`. -/
def ufInvalid : UniversalField String where
  value := some "19/02/2025"
  description := ""
  alt_names := []
  merged := false
  system :=
    { group_id := "universal_field_2", valid := some false,
      column_index := -1, row_index := -1 }

/-- A header entry for the key `"block"`. -/
def hdrBlock : HeaderEntry String where
  field_name := "Block"
  description := ""
  alt_names := []
  system := some
    { merged := false, group_id := "col_1", column_index := 1, row_index := -1 }
  bbox := none

/-- The document used by the viewer-operation witnesses: two universal fields
(one valid, one invalid), one header entry plus the reserved `"system"`
entry carrying the header-block bbox, and one row. -/
def docW : Doc String where
  universal_fields := [("area_name", ufValid), ("date", ufInvalid)]
  header_map :=
    [("block", hdrBlock),
     ("system",
      { field_name := "", description := "", alt_names := [], system := none,
        bbox := some bbox0 })]
  rows := [rowW]

/-! ## Helper lemmas on the object-map primitives -/

theorem jget_append (k : String) (l₁ l₂ : List (String × α)) :
    jget k (l₁ ++ l₂) = (jget k l₁).or (jget k l₂) := by
  induction l₁ with
  | nil => simp [jget]
  | cons p ps ih =>
    by_cases h : p.1 = k <;> simp [jget, h, ih]

theorem jget_map_value (k : String) (g : String → α → β) :
    ∀ l : List (String × α),
      jget k (l.map (fun p => (p.1, g p.1 p.2))) = (jget k l).map (g k)
  | [] => by simp [jget]
  | p :: ps => by
    by_cases h : p.1 = k
    · subst h; simp [jget]
    · simp [jget, h, jget_map_value k g ps]

theorem jget_filter_key (k : String) (q : String → Bool) :
    ∀ l : List (String × α),
      jget k (l.filter (fun p => q p.1)) = if q k then jget k l else none
  | [] => by simp [jget]
  | p :: ps => by
    by_cases h : p.1 = k
    · subst h
      by_cases hq : q p.1 <;> simp [jget, hq, jget_filter_key p.1 q ps]
    · by_cases hq : q p.1 <;> simp [jget, h, hq, jget_filter_key k q ps]

theorem jget_jsDelete_self (k : String) :
    ∀ l : List (String × α), jget k (jsDelete l k) = none
  | [] => by simp [jsDelete, jget]
  | p :: ps => by
    by_cases h : p.1 = k
    · simpa [jsDelete, List.filter_cons, h] using jget_jsDelete_self k ps
    · simpa [jsDelete, List.filter_cons, h, jget] using jget_jsDelete_self k ps

theorem jget_jsDelete_ne (j k : String) (h : j ≠ k) :
    ∀ l : List (String × α), jget j (jsDelete l k) = jget j l
  | [] => by simp [jsDelete, jget]
  | p :: ps => by
    by_cases hp : p.1 = k
    · have hkj : (k = j) = False := by simp [Ne.symm h]
      simpa [jsDelete, List.filter_cons, hp, jget, hkj]
        using jget_jsDelete_ne j k h ps
    · by_cases hj : p.1 = j
      · simp [jsDelete, List.filter_cons, hp, jget, hj, h]
      · simpa [jsDelete, List.filter_cons, hp, jget, hj]
          using jget_jsDelete_ne j k h ps

theorem jget_map_ite_set (k : String) (v : α) :
    ∀ l : List (String × α), (jget k l).isSome →
      jget k (l.map (fun p => if p.1 = k then (k, v) else p)) = some v
  | [], h => by simp [jget] at h
  | p :: ps, h => by
    by_cases hp : p.1 = k
    · simp [jget, hp]
    · simp only [jget, hp, if_false] at h
      simpa [jget, hp] using jget_map_ite_set k v ps h

theorem jget_jsSet_self (k : String) (v : α) (l : List (String × α)) :
    jget k (jsSet l k v) = some v := by
  unfold jsSet
  by_cases h : (jget k l).isSome
  · rw [if_pos h]; exact jget_map_ite_set k v l h
  · rw [if_neg h, jget_append]
    have hn : jget k l = none := by
      cases hx : jget k l
      · rfl
      · rw [hx] at h; simp at h
    simp [hn, jget, Option.or]

theorem jget_spreadMerge (b o : List (String × α)) (k : String) :
    jget k (spreadMerge b o) = (jget k o).or (jget k b) := by
  unfold spreadMerge
  rw [jget_append, jget_map_value k (fun j w => (jget j o).getD w) b,
    jget_filter_key k (fun j => (jget j b).isNone) o]
  cases hb : jget k b <;> cases ho : jget k o <;> simp [hb, ho, Option.or]

/-! ## Helper lemmas on indexing, filterMap and findIdx? -/

theorem mem_withIdx_le : ∀ {n : Nat} {l : List α} {p : Nat × α},
    p ∈ withIdx n l → n ≤ p.1 := by
  intro n l
  induction l generalizing n with
  | nil => intro p hp; simp [withIdx] at hp
  | cons a as ih =>
    intro p hp
    rcases (by simpa [withIdx] using hp) with h | h
    · simp [h]
    · exact Nat.le_of_succ_le (ih h)

theorem nodup_withIdx_map (g : Nat → β) (hg : ∀ i j, g i = g j → i = j) :
    ∀ (n : Nat) (l : List α), ((withIdx n l).map (fun p => g p.1)).Nodup := by
  intro n l
  induction l generalizing n with
  | nil => simp [withIdx]
  | cons a as ih =>
    simp only [withIdx, List.map_cons, List.nodup_cons]
    refine ⟨fun hmem => ?_, ih (n + 1)⟩
    rcases List.mem_map.mp hmem with ⟨q, hq, hgq⟩
    have h1 : q.1 = n := hg q.1 n hgq
    have h2 : n + 1 ≤ q.1 := mem_withIdx_le hq
    omega

theorem filterMap_of_some (f : α → Option β) (g : α → β)
    (hf : ∀ a, f a = some (g a)) :
    ∀ l : List α, l.filterMap f = l.map g
  | [] => by simp
  | a :: as => by
    simp [List.filterMap_cons, hf a, filterMap_of_some f g hf as]

theorem findIdx?_go_eq_none (p : α → Bool) :
    ∀ (l : List α) (i : Nat), (∀ x ∈ l, p x = false) → l.findIdx? p i = none
  | [], _, _ => rfl
  | a :: as, i, h => by
    have ha : p a = false := h a (List.mem_cons_self a as)
    simp only [List.findIdx?, ha, Bool.false_eq_true, if_false]
    exact findIdx?_go_eq_none p as (i + 1) (fun x hx => h x (List.mem_cons_of_mem a hx))

theorem findIdx?_go_eq_some (p : α → Bool) :
    ∀ (l : List α) (n i : Nat) (hn : n < l.length),
      p (l.get ⟨n, hn⟩) = true →
      (∀ j (hj : j < n), p (l.get ⟨j, Nat.lt_trans hj hn⟩) = false) →
      l.findIdx? p i = some (i + n)
  | [], n, _, hn, _, _ => absurd hn (Nat.not_lt_zero n)
  | a :: as, 0, i, _, hp, _ => by
    simp only [List.get] at hp
    simp [List.findIdx?, hp]
  | a :: as, n + 1, i, hn, hp, hfirst => by
    have ha : p a = false := hfirst 0 (Nat.succ_pos n)
    simp only [List.findIdx?, ha, Bool.false_eq_true, if_false]
    have := findIdx?_go_eq_some p as n (i + 1) (Nat.lt_of_succ_lt_succ hn) hp
      (fun j hj => hfirst (j + 1) (Nat.succ_lt_succ hj))
    rw [this]
    congr 1
    omega

/-! ## Builder lemmas -/

theorem universal_gids_build (univs : List (String × Option String))
    (headers : List (String × Nat × Bool)) (rowsIn : List RowInput) :
    (buildDocument univs headers rowsIn).universal_fields.map
        (fun p => p.2.system.group_id)
      = (withIdx 0 univs).map
          (fun p => (⟨GKind.universalField, p.1 + 1⟩ : GroupId)) := by
  show ((withIdx 0 univs).map _).map _ = _
  rw [List.map_map]
  rfl

theorem header_gids_build (univs : List (String × Option String))
    (headers : List (String × Nat × Bool)) (rowsIn : List RowInput) :
    (buildDocument univs headers rowsIn).header_map.filterMap
        (fun p => p.2.system.map (·.group_id))
      = (withIdx 0 headers).map (fun p => (⟨GKind.col, p.1⟩ : GroupId)) := by
  show ((withIdx 0 headers).map _).filterMap _ = _
  rw [List.filterMap_map]
  exact filterMap_of_some _ _ (fun a => rfl) _

theorem row_gids_build (univs : List (String × Option String))
    (headers : List (String × Nat × Bool)) (rowsIn : List RowInput) :
    (buildDocument univs headers rowsIn).rows.filterMap
        (fun r => r.system.group_id)
      = (withIdx 0 rowsIn).map (fun p => (⟨GKind.row, p.1⟩ : GroupId)) := by
  show ((withIdx 0 rowsIn).map _).filterMap _ = _
  rw [List.filterMap_map]
  exact filterMap_of_some _ _ (fun a => rfl) _

theorem kind_of_mem_gids (K : GKind) (h : Nat → Nat) (n : Nat) (l : List α) :
    ∀ a ∈ (withIdx n l).map (fun p => (⟨K, h p.1⟩ : GroupId)), a.kind = K := by
  intro a ha
  rcases List.mem_map.mp ha with ⟨q, _, rfl⟩
  rfl

theorem nodup_kind_gids (K : GKind) (h : Nat → Nat)
    (hh : ∀ i j, h i = h j → i = j) (n : Nat) (l : List α) :
    ((withIdx n l).map (fun p => (⟨K, h p.1⟩ : GroupId))).Nodup := by
  exact nodup_withIdx_map (fun i => (⟨K, h i⟩ : GroupId))
    (fun i j hij => hh i j (by injection hij)) n l

/-! ## Claim theorems -/

/-- C1.  Header merge: a HEADER row with the cell "Canopy Openness" at column
5 spanning columns 5 through 8, followed by a HEADER row with "North",
"East", "West", "South" at columns 5, 6, 7, 8, resolves to exactly the keys
`canopy_openness_north`, `canopy_openness_east`, `canopy_openness_west`,
`canopy_openness_south`, each with `merged = true`. -/
theorem c1_header_merge :
    resolveHeaders
      [[⟨"Canopy Openness", 5, 4⟩],
       [⟨"North", 5, 1⟩, ⟨"East", 6, 1⟩, ⟨"West", 7, 1⟩, ⟨"South", 8, 1⟩]]
      = [("canopy_openness_north", 5, true), ("canopy_openness_east", 6, true),
         ("canopy_openness_west", 7, true), ("canopy_openness_south", 8, true)] := by
  decide

/-- C2.  Identifier propagation: for an identifier column the value sequence
`["1", "", "", "2", ""]` propagates to `["1", "1", "1", "2", "2"]` — every
empty cell inherits the nearest prior non-empty value, and an explicit new
value resets the inherited value for all subsequent empty cells. -/
theorem c2_identifier_propagation :
    propagateIdentifier ["1", "", "", "2", ""] = ["1", "1", "1", "2", "2"] := by
  decide

/-- C3.  Universal-field position invariant: for every input block
collection, every entry of the emitted document's `universal_fields` has
`system.column_index = -1` and `system.row_index = -1`. -/
theorem c3_universal_field_position (univs : List (String × Option String))
    (headers : List (String × Nat × Bool)) (rowsIn : List RowInput) :
    ∀ p ∈ (buildDocument univs headers rowsIn).universal_fields,
      p.2.system.column_index = -1 ∧ p.2.system.row_index = -1 := by
  intro p hp
  rcases List.mem_map.mp hp with ⟨q, _, rfl⟩
  exact ⟨rfl, rfl⟩

/-- The single universal-field entry emitted for the key "area_name" by the
one-universal-field build below. -/
def ufW : String × UniversalField GroupId :=
  ("area_name",
   { value := some "BKM", description := "", alt_names := [], merged := false,
     system :=
      { group_id := ⟨GKind.universalField, 1⟩, valid := some true,
        column_index := -1, row_index := -1 } })

/-- Witness for C3 at a concrete one-universal-field input. -/
theorem c3_universal_field_position_witness :
    ufW.2.system.column_index = -1 ∧ ufW.2.system.row_index = -1 :=
  c3_universal_field_position [("area_name", some "BKM")] [] [] ufW (by decide)

/-- C4.  Group-id uniqueness: in the emitted document the multiset of
`group_id` values of all universal fields, header-map entries and rows has no
duplicate, for every input block collection. -/
theorem c4_group_id_uniqueness (univs : List (String × Option String))
    (headers : List (String × Nat × Bool)) (rowsIn : List RowInput) :
    (allGroupIds (buildDocument univs headers rowsIn)).Nodup := by
  unfold allGroupIds
  rw [universal_gids_build univs headers rowsIn,
    header_gids_build univs headers rowsIn, row_gids_build univs headers rowsIn]
  have hu := nodup_kind_gids GKind.universalField (fun i => i + 1)
    (fun i j hij => by simpa using hij) 0 univs
  have hh := nodup_kind_gids GKind.col (fun i => i) (fun i j hij => hij) 0 headers
  have hr := nodup_kind_gids GKind.row (fun i => i) (fun i j hij => hij) 0 rowsIn
  refine List.Nodup.append (List.Nodup.append hu hh ?_) hr ?_
  · intro a ha hb
    have h1 := kind_of_mem_gids GKind.universalField (fun i => i + 1) 0 univs a ha
    have h2 := kind_of_mem_gids GKind.col (fun i => i) 0 headers a hb
    rw [h1] at h2
    exact GKind.noConfusion h2
  · intro a ha hb
    have h2 := kind_of_mem_gids GKind.row (fun i => i) 0 rowsIn a hb
    rcases List.mem_append.mp ha with hc | hc
    · have h1 := kind_of_mem_gids GKind.universalField (fun i => i + 1) 0 univs a hc
      rw [h1] at h2
      exact GKind.noConfusion h2
    · have h1 := kind_of_mem_gids GKind.col (fun i => i) 0 headers a hc
      rw [h1] at h2
      exact GKind.noConfusion h2

/-- C5.  Renaming a header key `k` to the new non-empty key `(jsTrim v)` through
`updateHeader` with field `indicator` moves the entry `header_map[k]` to the
new key, removes the old key, and in every row renames the field key `k` to
the new key (preserving its value) and rewrites the `header` reference of
every cell equal to `k`.  The keys are ordinary header keys, distinct from
the reserved key `"system"`. -/
theorem c5_update_header_rename (d : Doc String) (k v : String)
    (e : HeaderEntry String)
    (hk : jget k d.header_map = some e) (hks : k ≠ "system")
    (h1 : (jsTrim v) ≠ "") (h2 : (jsTrim v) ≠ k) (h3 : (jsTrim v) ≠ "system") :
    jget (jsTrim v) (updateHeader d k "indicator" v).header_map = some e
  ∧ jget k (updateHeader d k "indicator" v).header_map = none
  ∧ (updateHeader d k "indicator" v).rows = d.rows.map (renameKeyInRow k (jsTrim v))
  ∧ ∀ r : Row String,
      (∀ w, jget k r.fields = some w →
        jget (jsTrim v) (renameKeyInRow k (jsTrim v) r).fields = some w
        ∧ jget k (renameKeyInRow k (jsTrim v) r).fields = none)
    ∧ (jget k r.fields = none → (renameKeyInRow k (jsTrim v) r).fields = r.fields)
    ∧ (renameKeyInRow k (jsTrim v) r).system.cells
        = r.system.cells.map (fun p =>
            (p.1, if p.2.header = k then { p.2 with header := (jsTrim v) } else p.2)) := by
  have hop : updateHeader d k "indicator" v =
      { d with header_map := jsDelete (jsSet d.header_map (jsTrim v) e) k,
               rows := d.rows.map (renameKeyInRow k (jsTrim v)) } := by
    unfold updateHeader
    rw [hk]
    simp [h1, h2]
  refine ⟨?_, ?_, ?_, ?_⟩
  · rw [hop]
    show jget (jsTrim v) (jsDelete (jsSet d.header_map (jsTrim v) e) k) = some e
    rw [jget_jsDelete_ne (jsTrim v) k h2 _, jget_jsSet_self]
  · rw [hop]
    exact jget_jsDelete_self k _
  · rw [hop]
  · intro r
    refine ⟨?_, ?_, ?_⟩
    · intro w hw
      unfold renameKeyInRow
      rw [hw]
      exact ⟨by rw [jget_jsDelete_ne (jsTrim v) k h2 _, jget_jsSet_self],
             jget_jsDelete_self k _⟩
    · intro hnone
      unfold renameKeyInRow
      rw [hnone]
    · rfl

/-- Witness for C5: renaming the header key "block" of the concrete document
to "plot" moves its header entry to the new key. -/
theorem c5_update_header_rename_witness :
    jget (jsTrim "plot") (updateHeader docW "block" "indicator" "plot").header_map
      = some hdrBlock :=
  (c5_update_header_rename docW "block" "plot" hdrBlock (by decide) (by decide)
    (by decide) (by decide) (by decide)).1

/-! ## Flatten lemmas -/

theorem jget_none_of_not_mem_keys (k : String) :
    ∀ l : List (String × α), k ∉ l.map Prod.fst → jget k l = none
  | [], _ => rfl
  | p :: ps, h => by
    have hp : p.1 ≠ k := fun hx => h (by simp [hx])
    have hps : k ∉ ps.map Prod.fst := fun hx => h (by simp [hx])
    simp [jget, hp, jget_none_of_not_mem_keys k ps hps]

theorem flatOf_cons (p : String × UniversalField String)
    (ps : List (String × UniversalField String)) :
    flatOf (p :: ps)
      = if p.2.system.valid = some false then flatOf ps
        else (p.1, p.2.value) :: flatOf ps := by
  by_cases hq : p.2.system.valid = some false <;>
    simp [flatOf, validOf, List.filter_cons, hq]

theorem jget_flatOf_of_valid (k : String) :
    ∀ u : List (String × UniversalField String), ∀ uf,
      jget k u = some uf → uf.system.valid ≠ some false →
      jget k (flatOf u) = some uf.value
  | [], uf, h, _ => by simp [jget] at h
  | p :: ps, uf, h, hv => by
    rw [flatOf_cons]
    by_cases hp : p.1 = k
    · rw [jget, if_pos hp] at h
      obtain rfl : p.2 = uf := Option.some.inj h
      rw [if_neg hv, jget, if_pos hp]
    · rw [jget, if_neg hp] at h
      by_cases hq : p.2.system.valid = some false
      · rw [if_pos hq]
        exact jget_flatOf_of_valid k ps uf h hv
      · rw [if_neg hq, jget, if_neg hp]
        exact jget_flatOf_of_valid k ps uf h hv

theorem jget_flatOf_of_none (k : String) :
    ∀ u : List (String × UniversalField String),
      jget k u = none → jget k (flatOf u) = none
  | [], _ => rfl
  | p :: ps, h => by
    rw [flatOf_cons]
    by_cases hp : p.1 = k
    · rw [jget, if_pos hp] at h
      exact Option.noConfusion h
    · rw [jget, if_neg hp] at h
      by_cases hq : p.2.system.valid = some false
      · rw [if_pos hq]
        exact jget_flatOf_of_none k ps h
      · rw [if_neg hq, jget, if_neg hp]
        exact jget_flatOf_of_none k ps h

theorem jget_flatOf_of_invalid (k : String) :
    ∀ u : List (String × UniversalField String), ∀ uf,
      (u.map Prod.fst).Nodup → jget k u = some uf →
      uf.system.valid = some false → jget k (flatOf u) = none
  | [], uf, _, h, _ => by simp [jget] at h
  | p :: ps, uf, hnd, h, hv => by
    rw [List.map_cons] at hnd
    rcases List.nodup_cons.mp hnd with ⟨hpn, hpsn⟩
    rw [flatOf_cons]
    by_cases hp : p.1 = k
    · rw [jget, if_pos hp] at h
      obtain rfl : p.2 = uf := Option.some.inj h
      have hknotin : k ∉ ps.map Prod.fst := by rw [← hp]; exact hpn
      rw [if_pos hv]
      exact jget_flatOf_of_none k ps (jget_none_of_not_mem_keys k ps hknotin)
    · rw [jget, if_neg hp] at h
      by_cases hq : p.2.system.valid = some false
      · rw [if_pos hq]
        exact jget_flatOf_of_invalid k ps uf hpsn h hv
      · rw [if_neg hq, jget, if_neg hp]
        exact jget_flatOf_of_invalid k ps uf hpsn h hv

theorem jget_filter_ne_system (k : String) (hk : k ≠ "system") :
    ∀ l : List (String × α),
      jget k (l.filter (fun p => p.1 ≠ "system")) = jget k l
  | [] => rfl
  | p :: ps => by
    by_cases hs : p.1 = "system"
    · have hp : p.1 ≠ k := by rw [hs]; exact fun hx => hk hx.symm
      rw [List.filter_cons, if_neg (by simp [hs]), jget, if_neg hp]
      exact jget_filter_ne_system k hk ps
    · rw [List.filter_cons, if_pos (by simp [hs])]
      by_cases hp : p.1 = k
      · rw [jget, if_pos hp, jget, if_pos hp]
      · rw [jget, if_neg hp, jget, if_neg hp]
        exact jget_filter_ne_system k hk ps

theorem jget_flattenRow (flatU : List (String × Option String))
    (r : Row String) (k : String) :
    jget k (flattenRow flatU r).fields
      = (jget k r.fields).or (jget k (flatU.filter (fun p => p.1 ≠ "system"))) :=
  jget_spreadMerge _ _ k

/-- C6.  The Save-JSON flatten step merges a universal field into every
exported row exactly when its `system.valid` is not `false`: when valid, the
key is present in every exported row — with the universal value whenever the
row itself had no entry for it — and when `valid = false` the key is added to
no exported row. -/
theorem c6_flatten_valid_filter (d : Doc String)
    (hnd : (d.universal_fields.map Prod.fst).Nodup)
    (k : String) (uf : UniversalField String)
    (hu : jget k d.universal_fields = some uf) (hks : k ≠ "system")
    (r : Row String) (hr : r ∈ d.rows) :
    (uf.system.valid ≠ some false →
       jget k (flattenRow (flatUniversals d) r).fields
         = some ((jget k r.fields).getD uf.value))
  ∧ (uf.system.valid = some false →
       jget k (flattenRow (flatUniversals d) r).fields = jget k r.fields)
  ∧ (saveJsonDoc d).rows = d.rows.map (flattenRow (flatUniversals d)) := by
  refine ⟨?_, ?_, rfl⟩
  · intro hv
    rw [jget_flattenRow, jget_filter_ne_system k hks]
    simp only [flatUniversals]
    rw [jget_flatOf_of_valid k d.universal_fields uf hu hv]
    cases jget k r.fields <;> rfl
  · intro hv
    rw [jget_flattenRow, jget_filter_ne_system k hks]
    simp only [flatUniversals]
    rw [jget_flatOf_of_invalid k d.universal_fields uf hnd hu hv]
    cases jget k r.fields <;> rfl

/-- Witness for C6: in the concrete document the valid universal field
"area_name" is flattened into the row, which has no entry of its own for that
key, so the exported row carries the universal value. -/
theorem c6_flatten_valid_filter_witness :
    jget "area_name" (flattenRow (flatUniversals docW) rowW).fields
      = some ((jget "area_name" rowW.fields).getD ufValid.value) :=
  (c6_flatten_valid_filter docW (by decide) "area_name" ufValid (by decide)
    (by decide) rowW (by decide)).1 (by decide)

/-- C9.  Row-local values take precedence in the flatten step: a key already
present in a row keeps the row's own value in the exported row; flattening
never overwrites an existing row field. -/
theorem c9_flatten_row_precedence (d : Doc String) (r : Row String)
    (hr : r ∈ d.rows) (k : String) (w : Option String)
    (hw : jget k r.fields = some w) :
    jget k (flattenRow (flatUniversals d) r).fields = some w
  ∧ flattenRow (flatUniversals d) r ∈ (saveJsonDoc d).rows := by
  constructor
  · rw [jget_flattenRow, hw]
    rfl
  · exact List.mem_map_of_mem _ hr

/-- Witness for C9: the concrete row's own value for "block" survives the
flatten step. -/
theorem c9_flatten_row_precedence_witness :
    jget "block" (flattenRow (flatUniversals docW) rowW).fields
      = some (some "7") :=
  (c9_flatten_row_precedence docW rowW (by decide) "block" (some "7")
    (by decide)).1

/-- C7.  The overlay border class is a function of the cell's confidence
alone, with thresholds 70 and 85: below 70 the red class, in [70, 85) the
orange class, and at 85 and above neither (the part_001 BoxOverlay is not
even rendered there, and the App.vue BoxOverlay shows the green class); and
the thresholds never alter any value of the document or its export — the
Save-JSON export commutes with an arbitrary rewrite of every cell
confidence. -/
theorem c7_confidence_presentational :
    (∀ c : ℚ,
        (borderClass c = "border border-red-500" ↔ c < 70)
      ∧ (borderClass c = "border border-orange-400" ↔ 70 ≤ c ∧ c < 85)
      ∧ (85 ≤ c ↔ borderClass c = "border-none"))
  ∧ (∀ c : ℚ,
        (confidenceClass c = "border-red-400 shadow-[0_0_3px_rgba(255,0,0,0.3)]" ↔ c < 70)
      ∧ (confidenceClass c = "border-orange-400 shadow-[0_0_3px_rgba(255,165,0,0.3)]"
          ↔ 70 ≤ c ∧ c < 85)
      ∧ (85 ≤ c ↔ confidenceClass c = "border-green-400 shadow-[0_0_3px_rgba(0,255,0,0.3)]"))
  ∧ (∀ (text : String) (c : ℚ), 85 ≤ c → shouldShow text c = false)
  ∧ (∀ (f : ℚ → ℚ) (d : Doc String),
        saveJsonDoc (mapConf f d) = mapConf f (saveJsonDoc d)) := by
  refine ⟨?_, ?_, ?_, ?_⟩
  · intro c
    unfold borderClass
    by_cases h1 : c < 70
    · rw [if_pos h1]
      exact ⟨iff_of_true rfl h1,
        iff_of_false (by decide) (fun h => absurd h1 (not_lt.mpr h.1)),
        iff_of_false (not_le.mpr (lt_trans h1 (by norm_num))) (by decide)⟩
    · by_cases h2 : c < 85
      · rw [if_neg h1, if_pos h2]
        exact ⟨iff_of_false (by decide) h1,
          iff_of_true rfl ⟨not_lt.mp h1, h2⟩,
          iff_of_false (not_le.mpr h2) (by decide)⟩
      · rw [if_neg h1, if_neg h2]
        exact ⟨iff_of_false (by decide) h1,
          iff_of_false (by decide) (fun h => h2 h.2),
          iff_of_true (not_lt.mp h2) rfl⟩
  · intro c
    unfold confidenceClass
    by_cases h1 : c < 70
    · rw [if_pos h1]
      exact ⟨iff_of_true rfl h1,
        iff_of_false (by decide) (fun h => absurd h1 (not_lt.mpr h.1)),
        iff_of_false (not_le.mpr (lt_trans h1 (by norm_num))) (by decide)⟩
    · by_cases h2 : c < 85
      · rw [if_neg h1, if_pos h2]
        exact ⟨iff_of_false (by decide) h1,
          iff_of_true rfl ⟨not_lt.mp h1, h2⟩,
          iff_of_false (not_le.mpr h2) (by decide)⟩
      · rw [if_neg h1, if_neg h2]
        exact ⟨iff_of_false (by decide) h1,
          iff_of_false (by decide) (fun h => h2 h.2),
          iff_of_true (not_lt.mp h2) rfl⟩
  · intro text c h85
    have hlt : ¬(c < 85) := not_lt.mpr h85
    simp [shouldShow, hlt]
  · intro f d
    unfold saveJsonDoc mapConf
    simp only [List.map_map]
    rfl

/-- Witness for C7: a cell with confidence 90 and non-empty text is not
rendered by the part_001 BoxOverlay. -/
theorem c7_confidence_presentational_witness : shouldShow "7" 90 = false :=
  c7_confidence_presentational.2.2.1 "7" 90 (by norm_num)

/-- C8 counterexample: the claim fails when the incoming row carries the
empty string as its `system.group_id`.  The document's single row has that
same group id, so by the claim the row should be replaced, but `updateRow`
(whose JavaScript guard treats the empty string as falsy) leaves the document
unchanged. -/
theorem c8_update_row_counterexample :
    rowEmptyGid.system.group_id = rowEmptyGid'.system.group_id
  ∧ docEmptyGid.rows = [rowEmptyGid]
  ∧ updateRow docEmptyGid rowEmptyGid' = docEmptyGid
  ∧ rowEmptyGid' ≠ rowEmptyGid := by
  refine ⟨rfl, rfl, by decide, by decide⟩

/-- C8 as amended: `updateRow` replaces exactly the first row whose
`system.group_id` equals the incoming row's group id — leaving every other
row, the header map and the universal fields unchanged — provided that group
id is present and non-empty; when the incoming group id is absent or the
empty string, or no row matches it, the document is unchanged. -/
theorem c8_update_row_amended :
    (∀ (d : Doc String) (u : Row String) (g : String) (i : Nat)
        (hi : i < d.rows.length),
        u.system.group_id = some g → g ≠ "" →
        (d.rows.get ⟨i, hi⟩).system.group_id = some g →
        (∀ j (hj : j < i),
          (d.rows.get ⟨j, Nat.lt_trans hj hi⟩).system.group_id ≠ some g) →
        updateRow d u = { d with rows := d.rows.set i u })
  ∧ (∀ (d : Doc String) (u : Row String),
        u.system.group_id = none ∨ u.system.group_id = some "" →
        updateRow d u = d)
  ∧ (∀ (d : Doc String) (u : Row String),
        (∀ r ∈ d.rows, r.system.group_id ≠ u.system.group_id) →
        updateRow d u = d) := by
  refine ⟨?_, ?_, ?_⟩
  · intro d u g i hi hg hge hmatch hfirst
    unfold updateRow
    simp only [hg]
    rw [if_neg hge]
    have hf : d.rows.findIdx? (fun r => r.system.group_id = some g) = some i := by
      have := findIdx?_go_eq_some
        (fun r : Row String => decide (r.system.group_id = some g))
        d.rows i 0 hi (by simpa using hmatch)
        (fun j hj => by simpa using hfirst j hj)
      simpa using this
    rw [hf]
  · intro d u h
    rcases h with h | h
    · unfold updateRow
      simp only [h]
    · unfold updateRow
      simp [h]
  · intro d u h
    unfold updateRow
    split
    · rfl
    · rename_i g hu
      by_cases hge : g = ""
      · rw [if_pos hge]
      · rw [if_neg hge]
        have hf : d.rows.findIdx? (fun r => r.system.group_id = some g) = none := by
          apply findIdx?_go_eq_none
          intro r hr
          have := h r hr
          rw [hu] at this
          simpa using this
        rw [hf]

/-- Witness for the amended C8: replacing the single row of the concrete
document by an edited row with the same non-empty group id. -/
theorem c8_update_row_amended_witness :
    updateRow docW rowW2 = { docW with rows := docW.rows.set 0 rowW2 } :=
  c8_update_row_amended.1 docW rowW2 "row_1" 0 (by decide) rfl (by decide)
    (by decide) (fun j hj => absurd hj (Nat.not_lt_zero j))

/-! ### C10 support lemma -/

theorem jget_localHeadersInit (k : String) :
    ∀ headers : List (String × HeaderEntry String),
      jget k (localHeadersInit headers)
        = if k = "system" then none
          else (jget k headers).map (fun e => (⟨e, k⟩ : LocalHeader))
  | [] => by by_cases hk : k = "system" <;> simp [localHeadersInit, jget, hk]
  | p :: ps => by
    by_cases hs : p.1 = "system"
    · have hstep : localHeadersInit (p :: ps) = localHeadersInit ps := by
        simp [localHeadersInit, List.filter_cons, hs]
      rw [hstep, jget_localHeadersInit k ps]
      by_cases hk : k = "system"
      · rw [if_pos hk, if_pos hk]
      · have hp : p.1 ≠ k := by rw [hs]; exact fun hx => hk hx.symm
        rw [if_neg hk, if_neg hk, jget, if_neg hp]
    · have hstep : localHeadersInit (p :: ps)
          = (p.1, (⟨p.2, p.1⟩ : LocalHeader)) :: localHeadersInit ps := by
        simp [localHeadersInit, List.filter_cons, hs]
      rw [hstep]
      by_cases hp : p.1 = k
      · rw [jget, if_pos hp, if_neg (by rw [← hp]; exact hs), jget, if_pos hp]
        subst hp
        rfl
      · rw [jget, if_neg hp, jget_localHeadersInit k ps]
        by_cases hk : k = "system"
        · rw [if_pos hk, if_pos hk]
        · rw [if_neg hk, if_neg hk, jget, if_neg hp]

/-- C10.  The reserved header-map key `"system"` is not a field definition:
the side panel's local header copy contains exactly the header-map entries
under other keys (each made editable with its key stored as the editable
key), every `indicator` rename the panel can ever emit targets a key other
than `"system"` no matter how the user edits the copies, and the viewer's
header-block overlay is drawn exactly from `header_map.system.bbox` with
presentation-only confidence 84 and label "Headers". -/
theorem c10_side_panel_system_reserved :
    (∀ (headers : List (String × HeaderEntry String)) (k : String),
        (k = "system" → jget k (localHeadersInit headers) = none)
      ∧ (k ≠ "system" →
          jget k (localHeadersInit headers)
            = (jget k headers).map (fun e => (⟨e, k⟩ : LocalHeader))))
  ∧ (∀ (headers : List (String × HeaderEntry String))
        (edit : String × LocalHeader → LocalHeader) (ev : UpdateHeaderEvent),
        ev ∈ saveHeaderChanges
          ((localHeadersInit headers).map (fun p => (p.1, edit p))) →
        ev.field = "indicator" → ev.key ≠ "system")
  ∧ (∀ (d : Doc String) (b : BBox),
        headerOverlay d = some ⟨b, 84, "Headers"⟩
          ↔ (jget "system" d.header_map).bind (fun e => e.bbox) = some b) := by
  refine ⟨?_, ?_, ?_⟩
  · intro headers k
    constructor
    · intro hk
      rw [jget_localHeadersInit k headers, if_pos hk]
    · intro hk
      rw [jget_localHeadersInit k headers, if_neg hk]
  · intro headers edit ev hev hfield
    unfold saveHeaderChanges at hev
    rcases List.mem_flatten.mp hev with ⟨evs, hevs, hin⟩
    rcases List.mem_map.mp hevs with ⟨q, hq, rfl⟩
    rcases List.mem_append.mp hin with hl | hr
    · have hkey : ev.key = q.1 := by
        by_cases hq1 : q.2.editKey ≠ q.1
        · rw [if_pos hq1] at hl
          rcases List.mem_singleton.mp hl with rfl
          rfl
        · rw [if_neg hq1] at hl
          exact absurd hl (List.not_mem_nil ev)
      rcases List.mem_map.mp hq with ⟨p, hp, rfl⟩
      have hp' : p ∈ (headers.filter (fun w => w.1 ≠ "system")).map
          (fun w => (w.1, (⟨w.2, w.1⟩ : LocalHeader))) := hp
      rcases List.mem_map.mp hp' with ⟨z, hz, hzp⟩
      have hz1 : z.1 ≠ "system" := by
        rcases List.mem_filter.mp hz with ⟨_, hzf⟩
        simpa using hzf
      rw [hkey]
      have : (z.1, (⟨z.2, z.1⟩ : LocalHeader)).1 = z.1 := rfl
      rw [← hzp]
      exact hz1
    · exfalso
      rcases List.mem_cons.mp hr with rfl | hr2
      · have hx : ("field_name" : String) = "indicator" := hfield
        exact absurd hx (by decide)
      · rcases List.mem_singleton.mp hr2 with rfl
        have hx : ("description" : String) = "indicator" := hfield
        exact absurd hx (by decide)
  · intro d b
    unfold headerOverlay
    cases h : (jget "system" d.header_map).bind (fun e => e.bbox) with
    | none => simp [h]
    | some b' => simp [h, Overlay.mk.injEq]

/-- Witness for C10: looking up the ordinary key "block" in the side panel's
local copy of the concrete document's header map returns that header entry
made editable. -/
theorem c10_side_panel_system_reserved_witness :
    jget "block" (localHeadersInit docW.header_map)
      = (jget "block" docW.header_map).map (fun e => (⟨e, "block"⟩ : LocalHeader)) :=
  (c10_side_panel_system_reserved.1 docW.header_map "block").2 (by decide)

end FormIdable
